import Mathlib

/-!
Verification development for the hybrid graph-augmented retrieval engine of
the Document-Graph-Representation repository.

The definitions below are a shallow embedding of the retrieval code:

* `src/api/services/tools.py` — word-match baseline retrieval
  (`retrieve_from_database` / `_retrieve_word_match`) and graph-enhanced
  retrieval (`retrieve_with_graph_context` with the two Cypher builders
  `_build_graph_query_with_embedding` and `_build_graph_query_word_only`,
  plus `_process_graph_results`);
* `src/api/services/reranker.py` — `BGEReranker.rerank` and its fallback;
* `src/shared_functions/batch_retrieve_neo4j.py` — the `hybrid_search`
  mode of `Neo4j_retriever.query_neo4j`.

The Cypher queries are embedded as executable functions over an explicit
graph value.  Row order of a `MATCH` scan is the order of the node list of
the graph, `ORDER BY` is modelled as a stable sort on that row order, and
`DISTINCT` keeps the first occurrence of each equal row, so the embedding is
deterministic.  Floating point scores are modelled as rationals; the Neo4j
builtin `gds.similarity.cosine` is store-side code (an external collaborator
of the repository), so query functions take it as an explicit parameter
`cos`.  Provider calls that may throw (`embed_query`,
`client.execute_query`, cross-encoder scoring) are modelled as `Except`
values supplied by the caller.
-/

namespace DocGraph

/-! ### String helpers (Cypher `toLower`, `split`, `CONTAINS`) -/

/-- Lowercase a string character-wise, modelling Cypher `toLower` (query and
node texts in scope are ASCII-lowercased; already-lowercase characters are
unchanged). -/
def lowerStr (s : String) : String := (s.toList.map Char.toLower).asString

/-- `leadMatch w t` holds when `w` occurs at the head of `t`. -/
def leadMatch : List Char → List Char → Bool
  | [], _ => true
  | _ :: _, [] => false
  | a :: ws, b :: ts => a == b && leadMatch ws ts

/-- `hasSub w t` holds when `w` occurs contiguously somewhere in `t`,
modelling Cypher `t CONTAINS w`. -/
def hasSub (w : List Char) : List Char → Bool
  | [] => leadMatch w []
  | b :: ts => leadMatch w (b :: ts) || hasSub w ts

/-- String containment: `containsStr t w` models Cypher `t CONTAINS w`. -/
def containsStr (t w : String) : Bool := hasSub w.toList t.toList

/-- Split on a single delimiter character, modelling Cypher
`split(s, " ")` with a one-character delimiter: empty fields between
consecutive delimiters are kept. -/
def splitCharAux (sep : Char) (acc : List Char) : List Char → List (List Char)
  | [] => [acc.reverse]
  | c :: cs =>
      if c == sep then acc.reverse :: splitCharAux sep [] cs
      else splitCharAux sep (c :: acc) cs

/-- `splitChar sep s` splits `s` at every occurrence of `sep`. -/
def splitChar (sep : Char) (s : String) : List String :=
  (splitCharAux sep [] s.toList).map List.asString

/-! ### A stable insertion sort and first-occurrence deduplication

The Cypher `ORDER BY` is modelled as a stable sort with respect to a boolean
comparator `le` (`le a b` = "`a` may come no later than `b`"), and
`DISTINCT` as a first-occurrence dedup. -/

/-- Insert `a` into `l` before the first element `b` with `le a b`. -/
def insSorted (le : α → α → Bool) (a : α) : List α → List α
  | [] => [a]
  | b :: l => if le a b then a :: b :: l else b :: insSorted le a l

/-- Stable insertion sort: among elements the comparator ties, the input
order is preserved. -/
def stableSort (le : α → α → Bool) : List α → List α
  | [] => []
  | a :: l => insSorted le a (stableSort le l)

/-- Dedup keeping the first occurrence, threading the set of seen
elements. -/
def nubAux [DecidableEq α] (seen : List α) : List α → List α
  | [] => []
  | a :: l => if a ∈ seen then nubAux seen l else a :: nubAux (a :: seen) l

/-- First-occurrence deduplication, modelling Cypher `DISTINCT`. -/
def nubFirst [DecidableEq α] (l : List α) : List α := nubAux [] l

/-! ### Graph data model

A node of the scanned namespace.  `text`, `original_embedding` and
`embedding` are nullable node properties (`n.id` is always set by the
indexer, so the query guard `WHERE id IS NOT NULL` is vacuous here). -/

structure Node where
  id : String
  text : Option String
  original_embedding : Option (List ℚ)
  embedding : Option (List ℚ)
  deriving DecidableEq, Repr

/-- A relationship of the graph; `MATCH (a)-[r]-(b)` traverses it in either
direction. -/
structure Edge where
  src : String
  dst : String
  rel : String
  deriving DecidableEq, Repr

/-- The namespace-scoped view of the graph store: the nodes carrying the
namespace label, in scan order, and the relationships between them. -/
structure Graph where
  nodes : List Node
  edges : List Edge
  deriving DecidableEq, Repr

/-! ### Word-match scoring (`_retrieve_word_match`, tools.py lines 60-72) -/

/-- Retrieval configuration constants from tools.py. -/
def WORD_MATCH_CANDIDATES : ℕ := 20

def EMBEDDING_RERANK_TOP_K : ℕ := 5

def GRAPH_RELATED_NODE_SCORE : ℚ := mkRat 8 10

def GRAPH_RELATED_LIMIT : ℕ := 10

/-- `split(toLower(input), " ")`: the query words, duplicates kept. -/
def queryWords (prompt : String) : List String := splitChar ' ' (lowerStr prompt)

/-- `size([word IN words WHERE toLower(n.text) CONTAINS word])`: the number
of entries of `words` (with multiplicity) contained in the lowered text. -/
def matchCount (words : List String) (text : String) : ℕ :=
  (words.filter (fun w => containsStr (lowerStr text) w)).length

/-- Comparator for `ORDER BY match_count DESC` over `(node, match_count)`
rows. -/
def leMatchDesc (a b : Node × ℕ) : Bool := decide (b.2 ≤ a.2)

/-- Rows of the word-match query: scan nodes with non-null text, score by
`match_count`, keep positive scores, sort descending, `LIMIT top_k`. -/
def wordMatchRows (g : Graph) (prompt : String) (top_k : ℕ) : List (Node × ℕ) :=
  let words := queryWords prompt
  let scanned := g.nodes.filter (fun n => n.text.isSome)
  let scored := scanned.map (fun n => (n, matchCount words (n.text.getD "")))
  let matched := scored.filter (fun p => decide (0 < p.2))
  (stableSort leMatchDesc matched).take top_k

/-- Output schema of `retrieve_from_database` (`RetrieveOutput` in
rag_schemas.py): chunks as `(id, text)` pairs, source ids, scores. -/
structure RetrieveOutput where
  chunks : List (String × String)
  source_ids : List String
  scores : List ℚ
  deriving DecidableEq, Repr

/-- `_retrieve_word_match` (tools.py lines 52-83): run the word-match query
against the store; on any store error return the empty output. -/
def retrieve_word_match (store : Except String Graph) (prompt : String)
    (top_k : ℕ) : RetrieveOutput :=
  match store with
  | .error _ => { chunks := [], source_ids := [], scores := [] }
  | .ok g =>
      let rows := wordMatchRows g prompt top_k
      { chunks := rows.map (fun r => (r.1.id, r.1.text.getD ""))
        source_ids := rows.map (fun r => r.1.id)
        scores := rows.map (fun r => (r.2 : ℚ)) }

/-- `retrieve_from_database` (tools.py lines 38-49) delegates to the
word-match retrieval. -/
def retrieve_from_database (store : Except String Graph) (prompt : String)
    (top_k : ℕ) : RetrieveOutput :=
  retrieve_word_match store prompt top_k

/-! ### Seed selection for the graph queries -/

/-- The type of the store-side cosine similarity `gds.similarity.cosine`,
taken as a parameter of the embedded queries. -/
abbrev CosFun := List ℚ → List ℚ → ℚ

/-- Comparator for `ORDER BY sim_score DESC` over `(node, sim)` rows. -/
def leSimDesc (a b : Node × ℚ) : Bool := decide (b.2 ≤ a.2)

/-- Steps 1-2 of `_build_graph_query_with_embedding` (tools.py lines
142-160): scan nodes with non-null text and non-null `original_embedding`,
keep positive `match_count`, sort descending, `LIMIT 20`, rescore by
`gds.similarity.cosine(n.original_embedding, queryEmbedding)`, sort
descending, `LIMIT 5`. -/
def seedsWithEmbedding (g : Graph) (cos : CosFun) (emb : List ℚ)
    (prompt : String) : List Node :=
  let words := queryWords prompt
  let scanned := g.nodes.filter (fun n => n.text.isSome && n.original_embedding.isSome)
  let scored := scanned.map (fun n => (n, matchCount words (n.text.getD "")))
  let matched := scored.filter (fun p => decide (0 < p.2))
  let topWord := (stableSort leMatchDesc matched).take WORD_MATCH_CANDIDATES
  let sims := topWord.map (fun p => (p.1, cos (p.1.original_embedding.getD []) emb))
  ((stableSort leSimDesc sims).take EMBEDDING_RERANK_TOP_K).map (fun p => p.1)

/-- Seed selection of `_build_graph_query_word_only` (tools.py lines
202-211): scan nodes with non-null text, keep positive `match_count`, sort
descending, `LIMIT 5`. -/
def seedsWordOnly (g : Graph) (prompt : String) : List Node :=
  let words := queryWords prompt
  let scanned := g.nodes.filter (fun n => n.text.isSome)
  let scored := scanned.map (fun n => (n, matchCount words (n.text.getD "")))
  let matched := scored.filter (fun p => decide (0 < p.2))
  ((stableSort leMatchDesc matched).take EMBEDDING_RERANK_TOP_K).map (fun p => p.1)

/-! ### Graph expansion (`UNWIND seeds ... OPTIONAL MATCH (seed)-[r]-(related)`) -/

/-- Look a node up by id in the namespace. -/
def nodeById (g : Graph) (i : String) : Option Node :=
  g.nodes.find? (fun n => n.id == i)

/-- The candidate row reached through one edge endpoint: the node with the
given id, kept when its text is non-null (`WHERE related.text IS NOT
NULL`), paired with `type(r)`. -/
def relatedVia (g : Graph) (i rel : String) : List (Node × String) :=
  (((nodeById g i).toList).filter (fun n => n.text.isSome)).map
    (fun related => (related, rel))

/-- The `(related, type(r))` matches of one edge for a given seed:
`(seed)-[r]-(related:ns)` traverses the edge in either direction (a
self-loop matches once). -/
def edgeMatches (g : Graph) (seed : Node) (e : Edge) : List (Node × String) :=
  if e.src == seed.id && e.dst == seed.id then relatedVia g e.dst e.rel
  else if e.src == seed.id then relatedVia g e.dst e.rel
  else if e.dst == seed.id then relatedVia g e.src e.rel
  else []

/-- All `(related, type(r))` rows of one seed, in edge scan order. -/
def neighborRows (g : Graph) (seed : Node) : List (Node × String) :=
  g.edges.flatMap (edgeMatches g seed)

/-- `UNWIND seeds AS seed OPTIONAL MATCH (seed)-[r]-(related)` rows: for
each seed its matches, or a single `(seed, null)` row when it has none. -/
def expandRows (g : Graph) (seeds : List Node) :
    List (Node × Option (Node × String)) :=
  seeds.flatMap (fun s =>
    match neighborRows g s with
    | [] => [(s, none)]
    | ms => ms.map (fun m => (s, some m)))

/-! ### Combining seed and related rows into candidate records -/

/-- One row of the final `RETURN id, text, score, is_seed, relationship`.
`DISTINCT` in the query compares whole records of this shape. -/
structure Cand where
  id : String
  text : String
  score : ℚ
  is_seed : Bool
  relationship : Option String
  deriving DecidableEq, Repr

/-- The seed record `{id, text, score: 1.0, is_seed: true, relationship:
null}`. -/
def mkSeedCand (s : Node) : Cand :=
  { id := s.id, text := s.text.getD "", score := 1, is_seed := true,
    relationship := none }

/-- The related record `{id, text, score: 0.8, is_seed: false,
relationship: type(r)}`. -/
def mkRelCand (m : Node × String) : Cand :=
  { id := m.1.id, text := m.1.text.getD "", score := GRAPH_RELATED_NODE_SCORE,
    is_seed := false, relationship := some m.2 }

/-- `collect(DISTINCT {seed record})` and `collect(DISTINCT CASE ... END)`
over the surviving rows, concatenated (`seed_nodes + [x IN related_nodes
WHERE x IS NOT NULL]`; `collect` drops the null rows). -/
def combineRows (rows : List (Node × Option (Node × String))) : List Cand :=
  let seed_nodes := nubFirst (rows.map (fun r => mkSeedCand r.1))
  let related_nodes := nubFirst (rows.filterMap (fun r => r.2.map mkRelCand))
  seed_nodes ++ related_nodes

/-- Comparator for `ORDER BY score DESC, is_seed DESC` (`true` sorts before
`false`). -/
def leCand (a b : Cand) : Bool :=
  decide (b.score < a.score) ||
    (decide (b.score = a.score) && (!b.is_seed || a.is_seed))

/-- The tail of both graph queries: `WITH DISTINCT id, text, score,
is_seed, relationship ... RETURN ... ORDER BY score DESC, is_seed DESC
LIMIT $top_k`. -/
def finalizeCands (cands : List Cand) (top_k : ℕ) : List Cand :=
  (stableSort leCand (nubFirst cands)).take top_k

/-- The whole Cypher query of `_build_graph_query_with_embedding` (tools.py
lines 140-197) evaluated on a graph.  Note that `WITH seed, related, r
LIMIT {GRAPH_RELATED_LIMIT}` caps the joined rows globally, to 10 rows in
total across all seeds. -/
def graphQueryWithEmbedding (g : Graph) (cos : CosFun) (emb : List ℚ)
    (prompt : String) (top_k : ℕ) : List Cand :=
  let seeds := seedsWithEmbedding g cos emb prompt
  let rows := (expandRows g seeds).take GRAPH_RELATED_LIMIT
  finalizeCands (combineRows rows) top_k

/-- The whole Cypher query of `_build_graph_query_word_only` (tools.py
lines 200-245) evaluated on a graph. -/
def graphQueryWordOnly (g : Graph) (prompt : String) (top_k : ℕ) : List Cand :=
  let seeds := seedsWordOnly g prompt
  let rows := (expandRows g seeds).take GRAPH_RELATED_LIMIT
  finalizeCands (combineRows rows) top_k

/-! ### Result assembly (`_process_graph_results`, tools.py lines 248-288) -/

/-- An entry of `graph_context`. -/
structure GraphCtxEntry where
  node_id : String
  relationship : String
  text_preview : String
  deriving DecidableEq, Repr

/-- Output schema of `retrieve_with_graph_context` (`GraphRetrieveOutput`
in rag_schemas.py). -/
structure GraphRetrieveOutput where
  chunks : List (String × String)
  source_ids : List String
  scores : List ℚ
  graph_context : List GraphCtxEntry
  cypher_query : String
  embedding_used : Bool
  warnings : List String
  deriving DecidableEq, Repr

/-- Python `text[:100]`. -/
def strTake (n : ℕ) (s : String) : String := (s.toList.take n).asString

/-- `_process_graph_results`: map result rows to chunks/scores/source ids;
rows with `is_seed` false and a truthy relationship string also feed
`graph_context`. -/
def processGraphResults (results : List Cand) (embedding_used : Bool)
    (warnings : List String) : GraphRetrieveOutput :=
  { chunks := results.map (fun r => (r.id, r.text))
    source_ids := results.map (fun r => r.id)
    scores := results.map (fun r => r.score)
    graph_context := results.filterMap (fun r =>
      match r.relationship with
      | some rel =>
          if !r.is_seed && rel ≠ "" then
            some { node_id := r.id, relationship := rel,
                   text_preview := strTake 100 r.text }
          else none
      | none => none)
    cypher_query :=
      if embedding_used then "hybrid_word_match_embedding_graph"
      else "word_match_graph"
    embedding_used := embedding_used
    warnings := warnings }

/-- `retrieve_with_graph_context` (tools.py lines 86-137).  `embRes` is the
outcome of `embed_query(prompt)` (`.error` when it throws), `store` the
outcome of reaching the graph store (`.error` when `execute_query` throws).
Python truthiness of `if query_embedding:` makes an empty embedding list
fall back to the word-only query while `embedding_used` stays true.  On a
store error the embedding warning list is replaced by `[str(e)]`. -/
def retrieve_with_graph_context (store : Except String Graph) (cos : CosFun)
    (embRes : Except String (List ℚ)) (prompt : String) (top_k : ℕ)
    (hop_depth : ℕ) : GraphRetrieveOutput :=
  let ctx :=
    match embRes with
    | .ok v => (some v, true, ([] : List String))
    | .error e => (none, false, ["Embedding unavailable: " ++ strTake 50 e])
  match store with
  | .error e =>
      { chunks := [], source_ids := [], scores := [], graph_context := []
        cypher_query := "Error: " ++ e, embedding_used := false
        warnings := [e] }
  | .ok g =>
      let results :=
        match ctx.1 with
        | some v =>
            if v ≠ [] then graphQueryWithEmbedding g cos v prompt top_k
            else graphQueryWordOnly g prompt top_k
        | none => graphQueryWordOnly g prompt top_k
      processGraphResults results ctx.2.1 ctx.2.2

/-! ### Cross-encoder reranker (`BGEReranker.rerank`, reranker.py) -/

/-- A chunk dict passed to the reranker; `text` is the value of its
`"text"` key when present. -/
structure RChunk where
  id : String
  text : Option String
  deriving DecidableEq, Repr

instance : Inhabited RChunk := ⟨⟨"", none⟩⟩

/-- State of the lazily loaded cross-encoder: either the `"fallback"`
sentinel (model unavailable), or a loaded model whose `predict` may throw
(`.error`). -/
inductive RerankModel where
  | fallback
  | loaded (predict : List (String × String) → Except String (List ℚ))

/-- The synthetic fallback scores `[1.0 - (i * 0.1) for i in
range(min(top_n, len(chunks)))]`; `0.1` is the rational `mkRat 1 10`. -/
def fallbackScores (top_n len : ℕ) : List ℚ :=
  (List.range (min top_n len)).map (fun i => 1 - (i : ℚ) * mkRat 1 10)

/-- The `(query, text)` pairs built from the chunks; a missing or empty
text contributes `(query, "")`. -/
def rerankPairs (query : String) (chunks : List RChunk) : List (String × String) :=
  chunks.map (fun c => (query, c.text.getD ""))

/-- The successful scoring path of `rerank`: indices sorted descending by
model score (`np.argsort(scores)[::-1]` leaves tied scores in unspecified
order; the model fixes index order on ties), truncated to `top_n`, used to
reorder chunks and scores. -/
def rerankScored (chunks : List RChunk) (scores : List ℚ)
    (top_n : ℕ) : List RChunk × List ℚ :=
  (((stableSort (fun i j => decide (scores.getD j 0 ≤ scores.getD i 0))
      (List.range scores.length)).take top_n).map
      (fun i => chunks.getD i default),
   ((stableSort (fun i j => decide (scores.getD j 0 ≤ scores.getD i 0))
      (List.range scores.length)).take top_n).map
      (fun i => scores.getD i 0))

/-- `BGEReranker.rerank` (reranker.py lines 44-99). -/
def rerank (m : RerankModel) (query : String) (chunks : List RChunk)
    (top_n : ℕ) : List RChunk × List ℚ :=
  if chunks.isEmpty then ([], [])
  else
    match m with
    | .fallback => (chunks.take top_n, fallbackScores top_n chunks.length)
    | .loaded predict =>
        if (rerankPairs query chunks).isEmpty then ([], [])
        else
          match predict (rerankPairs query chunks) with
          | .error _ => (chunks.take top_n, fallbackScores top_n chunks.length)
          | .ok scores => rerankScored chunks scores top_n

/-- The model is unavailable or scoring throws on these chunks. -/
def rerankFails (m : RerankModel) (query : String) (chunks : List RChunk) : Prop :=
  m = .fallback ∨
    ∃ predict err, m = .loaded predict ∧
      predict (rerankPairs query chunks) = .error err

/-! ### Hybrid score fusion (`hybrid_search` mode of
`Neo4j_retriever.query_neo4j`, batch_retrieve_neo4j.py lines 202-260) -/

/-- One collected row `{n, lex, emb}` of the hybrid query. -/
structure HRow where
  n : Node
  lex : ℚ
  emb : ℚ
  deriving DecidableEq, Repr

/-- The node property used for similarity: `embedding` when the `graph`
flag is set, `original_embedding` otherwise. -/
def nodeEmbProp (useGraphEmb : Bool) (n : Node) : Option (List ℚ) :=
  if useGraphEmb then n.embedding else n.original_embedding

/-- Collect the `{n, lex, emb}` rows: scan nodes with non-null text and
non-null embedding, score by `match_count` and by
`gds.similarity.cosine(n.{embedding}, queryEmbedding)`. -/
def hybridRows (g : Graph) (cos : CosFun) (useGraphEmb : Bool)
    (prompt : String) (qemb : List ℚ) : List HRow :=
  let words := queryWords prompt
  let scanned := g.nodes.filter
    (fun n => n.text.isSome && (nodeEmbProp useGraphEmb n).isSome)
  scanned.map (fun n =>
    { n := n
      lex := (matchCount words (n.text.getD "") : ℚ)
      emb := cos ((nodeEmbProp useGraphEmb n).getD []) qemb })

/-- `reduce(m = 0, r IN rows | CASE WHEN r.lex > m THEN r.lex ELSE m
END)`. -/
def maxLex (rows : List HRow) : ℚ :=
  rows.foldl (fun m r => if m < r.lex then r.lex else m) 0

/-- `alpha * lex_norm + (1 - alpha) * emb_norm` with `lex_norm = r.lex *
1.0 / max_lex` and `emb_norm = (r.emb + 1.0) / 2.0`. -/
def hybridScore (alpha M : ℚ) (r : HRow) : ℚ :=
  alpha * (r.lex * 1 / M) + (1 - alpha) * ((r.emb + 1) / 2)

/-- Comparator for `ORDER BY hybrid_score DESC`. -/
def leHybridDesc (alpha M : ℚ) (a b : HRow) : Bool :=
  decide (hybridScore alpha M b ≤ hybridScore alpha M a)

/-- The id ranking returned by the `hybrid_search` query: sort the rows
descending by hybrid score, `LIMIT 5`. -/
def hybridSearchOrder (g : Graph) (cos : CosFun) (useGraphEmb : Bool)
    (prompt : String) (qemb : List ℚ) (alpha : ℚ) : List String :=
  ((stableSort
      (leHybridDesc alpha (maxLex (hybridRows g cos useGraphEmb prompt qemb)))
      (hybridRows g cos useGraphEmb prompt qemb)).take 5).map
    (fun r => r.n.id)

/-- The pure lexical ranking of the same candidate rows (spec §4.4's
comparison order): descending by `lex`, `LIMIT 5`. -/
def specLexOrder (rows : List HRow) : List String :=
  ((stableSort (fun a b => decide (b.lex ≤ a.lex)) rows).take 5).map
    (fun r => r.n.id)

/-- The pure embedding ranking of the same candidate rows (spec §4.4's
comparison order): descending by `emb`, `LIMIT 5`. -/
def specEmbOrder (rows : List HRow) : List String :=
  ((stableSort (fun a b => decide (b.emb ≤ a.emb)) rows).take 5).map
    (fun r => r.n.id)

/-! ### Derived predicates and concrete instances used by the theorems -/

/-- The propositional ordering behind `leCand`: the later candidate has a
smaller score, or an equal score and a seed flag no higher. -/
def candBefore (a b : Cand) : Prop :=
  b.score < a.score ∨
    (b.score = a.score ∧ (b.is_seed = true → a.is_seed = true))

/-- `cid` is one edge away from `sid` in the graph (either direction). -/
def oneHopAdj (g : Graph) (sid cid : String) : Prop :=
  ∃ e ∈ g.edges, (e.src = sid ∧ e.dst = cid) ∨ (e.dst = sid ∧ e.src = cid)

/-- The spec's reading of the lexical score: the number of **distinct**
query words contained in the lowered text (duplicate query words counted
once).  Compared against `matchCount`, which counts occurrences. -/
def specDistinctMatchCount (q t : String) : ℕ :=
  ((nubFirst (queryWords q)).filter (fun w => containsStr (lowerStr t) w)).length

/-- Two nodes matching the query `"x"`, connected by one edge, both with
embeddings: each node is simultaneously a seed and a neighbour of the other
seed. -/
def pairGraph : Graph :=
  { nodes := [⟨"a", some "x1", some [1], none⟩, ⟨"b", some "x2", some [1], none⟩]
    edges := [⟨"a", "b", "R"⟩] }

/-- Two seed nodes for query `"x"` with equal match count, scanned in
descending id order, no edges. -/
def tieGraph : Graph :=
  { nodes := [⟨"b", some "x2", some [1], none⟩, ⟨"a", some "x1", some [1], none⟩]
    edges := [] }

/-- Seed `s1` has ten neighbours, seed `s2` has one (`m1`); neighbour texts
do not match the query `"x"`. -/
def capGraph : Graph :=
  { nodes := [⟨"s1", some "x s1", none, none⟩, ⟨"s2", some "x s2", none, none⟩,
      ⟨"n1", some "zz", none, none⟩, ⟨"n2", some "zz", none, none⟩,
      ⟨"n3", some "zz", none, none⟩, ⟨"n4", some "zz", none, none⟩,
      ⟨"n5", some "zz", none, none⟩, ⟨"n6", some "zz", none, none⟩,
      ⟨"n7", some "zz", none, none⟩, ⟨"n8", some "zz", none, none⟩,
      ⟨"n9", some "zz", none, none⟩, ⟨"n10", some "zz", none, none⟩,
      ⟨"m1", some "zz", none, none⟩]
    edges := [⟨"s1", "n1", "R"⟩, ⟨"s1", "n2", "R"⟩, ⟨"s1", "n3", "R"⟩,
      ⟨"s1", "n4", "R"⟩, ⟨"s1", "n5", "R"⟩, ⟨"s1", "n6", "R"⟩,
      ⟨"s1", "n7", "R"⟩, ⟨"s1", "n8", "R"⟩, ⟨"s1", "n9", "R"⟩,
      ⟨"s1", "n10", "R"⟩, ⟨"s2", "m1", "R"⟩] }

/-- One seed for query `"x"` with one non-matching neighbour. -/
def fbGraph : Graph :=
  { nodes := [⟨"s1", some "x s1", none, none⟩, ⟨"n1", some "zz", none, none⟩]
    edges := [⟨"s1", "n1", "R"⟩] }

/-- Scenario graph of spec §8: node A `"thuế suất VAT"`, node B
`"quy định khác"`. -/
def scenGraph : Graph :=
  { nodes := [⟨"A", some "thuế suất VAT", none, none⟩,
      ⟨"B", some "quy định khác", none, none⟩]
    edges := [] }

/-- A one-node graph with an embedding, used to instantiate the fusion
property. -/
def oneNodeGraph : Graph :=
  { nodes := [⟨"w", some "x", some [1], some [1]⟩], edges := [] }

/-- A constant store-side cosine, used for concrete instances. -/
def cosZero : CosFun := fun _ _ => 0

/-- Three concrete chunks for the reranker fallback scenario. -/
def threeChunks : List RChunk :=
  [⟨"c1", some "t1"⟩, ⟨"c2", some "t2"⟩, ⟨"c3", some "t3"⟩]

/-! ### Properties of the stable sort and of the dedup -/

theorem insSorted_perm (le : α → α → Bool) (a : α) (l : List α) :
    (insSorted le a l).Perm (a :: l) := by
  induction l with
  | nil => exact List.Perm.refl _
  | cons b t ih =>
    rw [insSorted]
    by_cases h : le a b = true
    · rw [if_pos h]
    · rw [if_neg h]
      exact (ih.cons b).trans (List.Perm.swap a b t)

theorem stableSort_perm (le : α → α → Bool) (l : List α) :
    (stableSort le l).Perm l := by
  induction l with
  | nil => exact List.Perm.refl _
  | cons a t ih =>
    rw [stableSort]
    exact (insSorted_perm le a (stableSort le t)).trans (ih.cons a)

theorem mem_stableSort (le : α → α → Bool) (l : List α) (x : α) :
    x ∈ stableSort le l ↔ x ∈ l :=
  (stableSort_perm le l).mem_iff

theorem pairwise_insSorted (le : α → α → Bool)
    (total : ∀ a b, le a b = true ∨ le b a = true)
    (htrans : ∀ a b c, le a b = true → le b c = true → le a c = true)
    (a : α) (l : List α) (hl : l.Pairwise (fun x y => le x y = true)) :
    (insSorted le a l).Pairwise (fun x y => le x y = true) := by
  induction l with
  | nil => simp [insSorted]
  | cons b t ih =>
    rw [List.pairwise_cons] at hl
    rw [insSorted]
    by_cases h : le a b = true
    · rw [if_pos h]
      refine List.Pairwise.cons ?_ (List.Pairwise.cons hl.1 hl.2)
      intro y hy
      rcases List.mem_cons.mp hy with rfl | hyt
      · exact h
      · exact htrans a b y h (hl.1 y hyt)
    · rw [if_neg h]
      refine List.Pairwise.cons ?_ (ih hl.2)
      intro y hy
      have hy' := (insSorted_perm le a t).mem_iff.mp hy
      rcases List.mem_cons.mp hy' with heq | hyt
      · rw [heq]
        rcases total a b with h' | h'
        · exact absurd h' h
        · exact h'
      · exact hl.1 y hyt

theorem pairwise_stableSort (le : α → α → Bool)
    (total : ∀ a b, le a b = true ∨ le b a = true)
    (htrans : ∀ a b c, le a b = true → le b c = true → le a c = true)
    (l : List α) :
    (stableSort le l).Pairwise (fun x y => le x y = true) := by
  induction l with
  | nil => simp [stableSort]
  | cons a t ih =>
    rw [stableSort]
    exact pairwise_insSorted le total htrans a _ ih

theorem insSorted_congr (le1 le2 : α → α → Bool)
    (h : ∀ a b, le1 a b = le2 a b) (a : α) (l : List α) :
    insSorted le1 a l = insSorted le2 a l := by
  induction l with
  | nil => rfl
  | cons b t ih => rw [insSorted, insSorted, h, ih]

theorem stableSort_congr (le1 le2 : α → α → Bool)
    (h : ∀ a b, le1 a b = le2 a b) (l : List α) :
    stableSort le1 l = stableSort le2 l := by
  induction l with
  | nil => rfl
  | cons a t ih => rw [stableSort, stableSort, ih, insSorted_congr le1 le2 h]

theorem nubAux_sublist [DecidableEq α] (seen l : List α) :
    (nubAux seen l).Sublist l := by
  induction l generalizing seen with
  | nil => exact List.Sublist.refl _
  | cons a t ih =>
    rw [nubAux]
    by_cases h : a ∈ seen
    · rw [if_pos h]
      exact (ih seen).cons a
    · rw [if_neg h]
      exact (ih (a :: seen)).cons₂ a

theorem nubFirst_sublist [DecidableEq α] (l : List α) :
    (nubFirst l).Sublist l :=
  nubAux_sublist [] l

theorem not_mem_nubAux_of_mem [DecidableEq α] (l : List α) :
    ∀ seen x, x ∈ seen → x ∉ nubAux seen l := by
  induction l with
  | nil => intro seen x _ h; simp [nubAux] at h
  | cons a t ih =>
    intro seen x hx
    rw [nubAux]
    by_cases h : a ∈ seen
    · rw [if_pos h]
      exact ih seen x hx
    · rw [if_neg h]
      intro hmem
      rcases List.mem_cons.mp hmem with rfl | hmem'
      · exact h hx
      · exact ih (a :: seen) x (List.mem_cons_of_mem a hx) hmem'

theorem nubAux_nodup [DecidableEq α] (l : List α) :
    ∀ seen, (nubAux seen l).Nodup := by
  induction l with
  | nil => intro seen; simp [nubAux]
  | cons a t ih =>
    intro seen
    rw [nubAux]
    by_cases h : a ∈ seen
    · rw [if_pos h]; exact ih seen
    · rw [if_neg h]
      exact List.nodup_cons.mpr
        ⟨not_mem_nubAux_of_mem t (a :: seen) a (List.mem_cons_self a seen),
         ih (a :: seen)⟩

theorem nubFirst_nodup [DecidableEq α] (l : List α) : (nubFirst l).Nodup :=
  nubAux_nodup l []

/-! ### The order used by `ORDER BY score DESC, is_seed DESC` -/

theorem leCand_iff (a b : Cand) : leCand a b = true ↔ candBefore a b := by
  cases hb : b.is_seed <;> cases ha : a.is_seed <;>
    simp [leCand, candBefore, hb, ha]

theorem leCand_total (a b : Cand) : leCand a b = true ∨ leCand b a = true := by
  rw [leCand_iff, leCand_iff]
  rcases lt_trichotomy b.score a.score with h | h | h
  · exact Or.inl (Or.inl h)
  · cases hb : b.is_seed
    · exact Or.inl (Or.inr ⟨h, by simp [hb]⟩)
    · cases ha : a.is_seed
      · exact Or.inr (Or.inr ⟨h.symm, by simp [hb]⟩)
      · exact Or.inl (Or.inr ⟨h, by simp [ha]⟩)
  · exact Or.inr (Or.inl h)

theorem leCand_trans (a b c : Cand) (h1 : leCand a b = true)
    (h2 : leCand b c = true) : leCand a c = true := by
  rw [leCand_iff] at h1 h2 ⊢
  rcases h1 with h1 | ⟨h1e, h1s⟩
  · rcases h2 with h2 | ⟨h2e, _⟩
    · exact Or.inl (lt_trans h2 h1)
    · exact Or.inl (lt_of_eq_of_lt h2e h1)
  · rcases h2 with h2 | ⟨h2e, h2s⟩
    · exact Or.inl (lt_of_lt_of_eq h2 h1e)
    · exact Or.inr ⟨h2e.trans h1e, fun hc => h1s (h2s hc)⟩

/-! ### Structure of the combined candidate list -/

theorem mem_combineRows (c : Cand)
    (rows : List (Node × Option (Node × String))) (h : c ∈ combineRows rows) :
    (c.is_seed = true ∧ c.score = 1 ∧ c.relationship = none) ∨
    (c.is_seed = false ∧ c.score = GRAPH_RELATED_NODE_SCORE) := by
  rcases List.mem_append.mp h with h' | h'
  · left
    have hm := (nubFirst_sublist _).subset h'
    rcases List.mem_map.mp hm with ⟨r, _, hr⟩
    rw [← hr]
    exact ⟨rfl, rfl, rfl⟩
  · right
    have hm := (nubFirst_sublist _).subset h'
    rcases List.mem_filterMap.mp hm with ⟨r, _, hr⟩
    rcases Option.map_eq_some'.mp hr with ⟨m, _, hmk⟩
    rw [← hmk]
    exact ⟨rfl, rfl⟩

theorem mem_finalizeCands (c : Cand) (l : List Cand) (k : ℕ)
    (h : c ∈ finalizeCands l k) : c ∈ l := by
  have h1 := (List.take_sublist _ _).subset h
  exact (nubFirst_sublist l).subset ((mem_stableSort _ _ _).mp h1)

theorem finalizeCands_nodup (l : List Cand) (k : ℕ) :
    (finalizeCands l k).Nodup := by
  have h1 : (stableSort leCand (nubFirst l)).Nodup :=
    ((stableSort_perm leCand (nubFirst l)).nodup_iff).mpr (nubFirst_nodup l)
  exact h1.sublist (List.take_sublist _ _)

theorem finalizeCands_sorted (l : List Cand) (k : ℕ) :
    (finalizeCands l k).Pairwise candBefore := by
  have h := pairwise_stableSort leCand leCand_total leCand_trans (nubFirst l)
  have h2 := List.Pairwise.sublist (List.take_sublist k _) h
  exact h2.imp (fun hab => (leCand_iff _ _).mp hab)

theorem finalizeCands_length_le (l : List Cand) (k : ℕ) :
    (finalizeCands l k).length ≤ k :=
  List.length_take_le _ _

theorem finalize_filter_length_le (l : List Cand) (k : ℕ) (p : Cand → Bool) :
    ((finalizeCands l k).filter p).length ≤ (l.filter p).length := by
  have h1 : ((finalizeCands l k).filter p).length ≤
      ((stableSort leCand (nubFirst l)).filter p).length :=
    ((List.take_sublist _ _).filter p).length_le
  have h2 : ((stableSort leCand (nubFirst l)).filter p).length =
      ((nubFirst l).filter p).length :=
    ((stableSort_perm leCand (nubFirst l)).filter p).length_eq
  have h3 : ((nubFirst l).filter p).length ≤ (l.filter p).length :=
    ((nubFirst_sublist l).filter p).length_le
  omega

theorem combineRows_filter_not_seed_le
    (rows : List (Node × Option (Node × String))) :
    ((combineRows rows).filter (fun c => !c.is_seed)).length ≤ rows.length := by
  unfold combineRows
  rw [List.filter_append]
  have hseed : ((nubFirst (rows.map (fun r => mkSeedCand r.1))).filter
      (fun c => !c.is_seed)) = [] := by
    rw [List.filter_eq_nil_iff]
    intro a ha
    rcases List.mem_map.mp ((nubFirst_sublist _).subset ha) with ⟨r, _, hr⟩
    rw [← hr]
    simp [mkSeedCand]
  rw [hseed, List.nil_append]
  have h1 : ((nubFirst (rows.filterMap (fun r => r.2.map mkRelCand))).filter
      (fun c => !c.is_seed)).length ≤
      (rows.filterMap (fun r => r.2.map mkRelCand)).length :=
    le_trans (List.length_filter_le _ _) (nubFirst_sublist _).length_le
  exact le_trans h1 (List.length_filterMap_le _ _)

/-! ### Membership lemmas for the graph expansion -/

theorem mem_relatedVia (g : Graph) (i rel : String) (m : Node × String)
    (h : m ∈ relatedVia g i rel) : m.1.id = i ∧ m.2 = rel := by
  unfold relatedVia at h
  rcases List.mem_map.mp h with ⟨n, hn, hm⟩
  have hmem : n ∈ (nodeById g i).toList := (List.mem_filter.mp hn).1
  have hsome : nodeById g i = some n := by
    cases hf : nodeById g i with
    | none => rw [hf] at hmem; simp at hmem
    | some x =>
      rw [hf] at hmem
      simp at hmem
      rw [hmem]
  have hsome' : g.nodes.find? (fun nn => nn.id == i) = some n := hsome
  have hp := List.find?_some hsome'
  have hid : n.id = i := eq_of_beq hp
  rw [← hm]
  exact ⟨hid, rfl⟩

theorem mem_edgeMatches (g : Graph) (s : Node) (e : Edge) (m : Node × String)
    (h : m ∈ edgeMatches g s e) :
    (e.src = s.id ∧ m.1.id = e.dst) ∨ (e.dst = s.id ∧ m.1.id = e.src) := by
  unfold edgeMatches at h
  by_cases h1 : (e.src == s.id && e.dst == s.id) = true
  · rw [if_pos h1] at h
    have h1' : (e.src == s.id) = true ∧ (e.dst == s.id) = true := by
      simpa using h1
    exact Or.inl ⟨eq_of_beq h1'.1, (mem_relatedVia g e.dst e.rel m h).1⟩
  · rw [if_neg h1] at h
    by_cases h2 : (e.src == s.id) = true
    · rw [if_pos h2] at h
      exact Or.inl ⟨eq_of_beq h2, (mem_relatedVia g e.dst e.rel m h).1⟩
    · rw [if_neg h2] at h
      by_cases h3 : (e.dst == s.id) = true
      · rw [if_pos h3] at h
        exact Or.inr ⟨eq_of_beq h3, (mem_relatedVia g e.src e.rel m h).1⟩
      · rw [if_neg h3] at h
        simp at h

theorem mem_neighborRows (g : Graph) (s : Node) (m : Node × String)
    (h : m ∈ neighborRows g s) :
    ∃ e ∈ g.edges,
      (e.src = s.id ∧ m.1.id = e.dst) ∨ (e.dst = s.id ∧ m.1.id = e.src) := by
  unfold neighborRows at h
  rcases List.mem_flatMap.mp h with ⟨e, he, hm⟩
  exact ⟨e, he, mem_edgeMatches g s e m hm⟩

theorem mem_expandRows (g : Graph) (seeds : List Node)
    (r : Node × Option (Node × String)) (h : r ∈ expandRows g seeds) :
    ∃ s ∈ seeds, r.1 = s ∧
      (r.2 = none ∨ ∃ m ∈ neighborRows g s, r.2 = some m) := by
  unfold expandRows at h
  rcases List.mem_flatMap.mp h with ⟨s, hs, hr⟩
  refine ⟨s, hs, ?_⟩
  cases hnr : neighborRows g s with
  | nil =>
    rw [hnr] at hr
    rcases List.mem_singleton.mp hr with rfl
    exact ⟨rfl, Or.inl rfl⟩
  | cons a t =>
    rw [hnr] at hr
    rcases List.mem_map.mp hr with ⟨m, hm, hrm⟩
    rw [← hrm]
    exact ⟨rfl, Or.inr ⟨m, hnr ▸ hm, rfl⟩⟩

/-- Every non-seed candidate of either graph query is one edge away from
one of the selected seeds. -/
theorem finalize_one_hop (g : Graph) (seeds : List Node) (k : ℕ) (c : Cand)
    (hc : c ∈ finalizeCands
      (combineRows ((expandRows g seeds).take GRAPH_RELATED_LIMIT)) k)
    (hns : c.is_seed = false) :
    ∃ s ∈ seeds, oneHopAdj g s.id c.id := by
  have hcomb := mem_finalizeCands _ _ _ hc
  rcases List.mem_append.mp hcomb with h' | h'
  · rcases List.mem_map.mp ((nubFirst_sublist _).subset h') with ⟨r, _, hr⟩
    rw [← hr] at hns
    simp [mkSeedCand] at hns
  · rcases List.mem_filterMap.mp ((nubFirst_sublist _).subset h') with
      ⟨r, hrmem, hr⟩
    rcases Option.map_eq_some'.mp hr with ⟨m, hr2, hmk⟩
    have hrows : r ∈ expandRows g seeds := (List.take_sublist _ _).subset hrmem
    rcases mem_expandRows g seeds r hrows with ⟨s, hs, _, hopt⟩
    rcases hopt with hnone | ⟨m', hm', hsome⟩
    · rw [hnone] at hr2; cases hr2
    · rw [hsome] at hr2
      have hmm : m' = m := Option.some.inj hr2
      rcases mem_neighborRows g s m (hmm ▸ hm') with ⟨e, he, hcase⟩
      refine ⟨s, hs, e, he, ?_⟩
      have hcid : c.id = m.1.id := by rw [← hmk]; rfl
      rcases hcase with ⟨hsrc, hrel⟩ | ⟨hsrc, hrel⟩
      · exact Or.inl ⟨hsrc, by rw [hcid, hrel]⟩
      · exact Or.inr ⟨hsrc, by rw [hcid, hrel]⟩

/-- Among the final candidates, every record with `is_seed = true` precedes
every record with `is_seed = false`. -/
theorem finalize_seed_priority (rows : List (Node × Option (Node × String)))
    (k : ℕ) :
    (finalizeCands (combineRows rows) k).Pairwise
      (fun a b => b.is_seed = true → a.is_seed = true) := by
  have hs := finalizeCands_sorted (combineRows rows) k
  refine hs.imp_of_mem ?_
  intro a b ha hb hab hbseed
  have hainv := mem_combineRows a rows (mem_finalizeCands _ _ _ ha)
  have hbinv := mem_combineRows b rows (mem_finalizeCands _ _ _ hb)
  rcases hab with hlt | ⟨_, himp⟩
  · rcases hbinv with ⟨_, hb1, _⟩ | ⟨hbf, _⟩
    · rcases hainv with ⟨has, _, _⟩ | ⟨_, ha8⟩
      · exact has
      · rw [hb1, ha8] at hlt
        exact absurd hlt (by decide)
    · rw [hbf] at hbseed; cases hbseed
  · exact himp hbseed

/-! ### Branch equations of `retrieve_with_graph_context` -/

theorem retrieve_err_eq (cos : CosFun) (embRes : Except String (List ℚ))
    (prompt e : String) (k h : ℕ) :
    retrieve_with_graph_context (.error e) cos embRes prompt k h
      = { chunks := [], source_ids := [], scores := [], graph_context := []
          cypher_query := "Error: " ++ e, embedding_used := false
          warnings := [e] } := by
  cases embRes <;> rfl

theorem retrieve_ok_err_eq (g : Graph) (cos : CosFun) (e prompt : String)
    (k h : ℕ) :
    retrieve_with_graph_context (.ok g) cos (.error e) prompt k h
      = processGraphResults (graphQueryWordOnly g prompt k) false
          ["Embedding unavailable: " ++ strTake 50 e] := rfl

theorem retrieve_ok_ok_eq (g : Graph) (cos : CosFun) (v : List ℚ)
    (prompt : String) (k h : ℕ) (hv : v ≠ []) :
    retrieve_with_graph_context (.ok g) cos (.ok v) prompt k h
      = processGraphResults (graphQueryWithEmbedding g cos v prompt k)
          true [] := by
  show processGraphResults
      (if v ≠ [] then graphQueryWithEmbedding g cos v prompt k
       else graphQueryWordOnly g prompt k) true [] = _
  rw [if_pos hv]

theorem retrieve_ok_nil_eq (g : Graph) (cos : CosFun) (prompt : String)
    (k h : ℕ) :
    retrieve_with_graph_context (.ok g) cos (.ok []) prompt k h
      = processGraphResults (graphQueryWordOnly g prompt k) true [] := by
  show processGraphResults
      (if ([] : List ℚ) ≠ [] then graphQueryWithEmbedding g cos [] prompt k
       else graphQueryWordOnly g prompt k) true [] = _
  rw [if_neg (by simp)]

theorem graphQueryWithEmbedding_len (g : Graph) (cos : CosFun) (v : List ℚ)
    (prompt : String) (k : ℕ) :
    (graphQueryWithEmbedding g cos v prompt k).length ≤ k :=
  finalizeCands_length_le _ _

theorem graphQueryWordOnly_len (g : Graph) (prompt : String) (k : ℕ) :
    (graphQueryWordOnly g prompt k).length ≤ k :=
  finalizeCands_length_le _ _

theorem wordMatchRows_length_le (g : Graph) (prompt : String) (k : ℕ) :
    (wordMatchRows g prompt k).length ≤ k :=
  List.length_take_le _ _

/-! ### The claims -/

/-- C1 (counterexample): a node that is both a seed and a neighbour of
another seed appears twice in the final candidate list — `DISTINCT` in the
query compares whole rows, not `chunk_id`s, so the result for `pairGraph`
holds the id `"a"` once as a seed row and once as a graph-expanded row. -/
theorem dup_chunk_id_cex :
    ((retrieve_with_graph_context (.ok pairGraph) cosZero (.ok [1]) "x" 10
      1).source_ids = ["a", "b", "b", "a"]) ∧
    ((retrieve_with_graph_context (.ok pairGraph) cosZero (.ok [1]) "x" 10
      1).source_ids.count "a" = 2) := by decide

/-- C1 (amended): the final candidate list of either graph query holds at
most one candidate per whole record `(id, text, score, is_seed,
relationship)`; the same `chunk_id` may occur both as a seed and as a
non-seed copy, and then every seed copy precedes every non-seed copy. -/
theorem final_candidates_nodup_records_and_seed_priority (g : Graph)
    (cos : CosFun) (emb : List ℚ) (prompt : String) (top_k : ℕ) :
    ((graphQueryWithEmbedding g cos emb prompt top_k).Nodup ∧
      (graphQueryWithEmbedding g cos emb prompt top_k).Pairwise
        (fun a b => b.is_seed = true → a.is_seed = true)) ∧
    ((graphQueryWordOnly g prompt top_k).Nodup ∧
      (graphQueryWordOnly g prompt top_k).Pairwise
        (fun a b => b.is_seed = true → a.is_seed = true)) :=
  ⟨⟨finalizeCands_nodup _ _, finalize_seed_priority _ _⟩,
   ⟨finalizeCands_nodup _ _, finalize_seed_priority _ _⟩⟩

/-- C2: for every retrieval request — word-match baseline and
graph-enhanced alike, on every store/embedding outcome — the returned
candidate list never exceeds the requested `top_k`. -/
theorem final_length_le_top_k (store : Except String Graph) (cos : CosFun)
    (embRes : Except String (List ℚ)) (prompt : String) (top_k hop_depth : ℕ) :
    (retrieve_with_graph_context store cos embRes prompt top_k
      hop_depth).chunks.length ≤ top_k ∧
    (retrieve_from_database store prompt top_k).chunks.length ≤ top_k := by
  constructor
  · cases store with
    | error e => rw [retrieve_err_eq]; exact Nat.zero_le _
    | ok g =>
      cases embRes with
      | error e =>
        rw [retrieve_ok_err_eq]
        simpa [processGraphResults] using graphQueryWordOnly_len g prompt top_k
      | ok v =>
        by_cases hv : v ≠ []
        · rw [retrieve_ok_ok_eq g cos v prompt top_k hop_depth hv]
          simpa [processGraphResults] using
            graphQueryWithEmbedding_len g cos v prompt top_k
        · rw [not_ne_iff.mp hv, retrieve_ok_nil_eq]
          simpa [processGraphResults] using graphQueryWordOnly_len g prompt top_k
  · cases store with
    | error e => exact Nat.zero_le _
    | ok g =>
      simpa [retrieve_from_database, retrieve_word_match] using
        wordMatchRows_length_le g prompt top_k

/-- C3 (counterexample): two candidates with equal score and equal
`is_seed` appear in *scan* order, here descending chunk-id order — the
query's `ORDER BY score DESC, is_seed DESC` has no `chunk_id` key. -/
theorem tie_order_not_by_chunk_id_cex :
    graphQueryWithEmbedding tieGraph cosZero [1] "x" 10
      = [{ id := "b", text := "x2", score := 1, is_seed := true,
           relationship := none },
         { id := "a", text := "x1", score := 1, is_seed := true,
           relationship := none }] := by decide

/-- C3 (amended): the final candidate list of either graph query is sorted
by `(score desc, is_seed desc)` only; ties in both keys keep arrival
order and carry no `chunk_id` tie-break. -/
theorem final_candidates_sorted_score_seed (g : Graph) (cos : CosFun)
    (emb : List ℚ) (prompt : String) (top_k : ℕ) :
    (graphQueryWithEmbedding g cos emb prompt top_k).Pairwise candBefore ∧
    (graphQueryWordOnly g prompt top_k).Pairwise candBefore :=
  ⟨finalizeCands_sorted _ _, finalizeCands_sorted _ _⟩

/-- C5 (counterexample): the `LIMIT 10` after `UNWIND seeds` caps the
joined rows globally: in `capGraph` seed `s1`'s ten neighbour rows exhaust
the cap, so seed `s2` contributes none of its neighbours — `m1` is absent —
and `s2` itself is dropped from the collected seed rows. -/
theorem neighbor_cap_not_per_seed_cex :
    ((seedsWordOnly capGraph "x").map (fun s => s.id) = ["s1", "s2"]) ∧
    (((expandRows capGraph (seedsWordOnly capGraph "x")).filter
      (fun r => r.1.id == "s2")).length = 1) ∧
    (("m1" ∈ (graphQueryWordOnly capGraph "x" 20).map (fun c => c.id))
      = False) ∧
    (("s2" ∈ (graphQueryWordOnly capGraph "x" 20).map (fun c => c.id))
      = False) := by decide

/-- C5 (amended): the cap of `GRAPH_RELATED_LIMIT = 10` applies to the
joined `(seed, related)` rows globally, shared across all seeds: the final
list of either graph query holds at most 10 non-seed candidates in total
(a seed appearing after the cap is exhausted contributes none). -/
theorem related_candidates_global_cap (g : Graph) (cos : CosFun)
    (emb : List ℚ) (prompt : String) (top_k : ℕ) :
    ((graphQueryWithEmbedding g cos emb prompt top_k).filter
      (fun c => !c.is_seed)).length ≤ GRAPH_RELATED_LIMIT ∧
    ((graphQueryWordOnly g prompt top_k).filter
      (fun c => !c.is_seed)).length ≤ GRAPH_RELATED_LIMIT := by
  constructor
  · refine le_trans (finalize_filter_length_le _ _ _) ?_
    refine le_trans (combineRows_filter_not_seed_le _) ?_
    exact List.length_take_le _ _
  · refine le_trans (finalize_filter_length_le _ _ _) ?_
    refine le_trans (combineRows_filter_not_seed_le _) ?_
    exact List.length_take_le _ _

/-- C4 (counterexample): the lexical score is not a count of **distinct**
query words — the list comprehension keeps duplicate query words, so for
query `"a a"` against text `"a"` the code yields 2 where one distinct word
matches. -/
theorem match_count_distinct_cex :
    matchCount (queryWords "a a") "a" = 2 ∧
    specDistinctMatchCount "a a" "a" = 1 ∧
    matchCount (queryWords "a a") "a" ≠ specDistinctMatchCount "a a" "a" := by
  decide

/-- C4 (amended): lexical seed selection lowercases the query, splits it on
single-space characters keeping duplicates, counts the query-word
occurrences (with multiplicity) contained in the lowered node text,
discards zero-match nodes, sorts descending and truncates; for the scenario
query `"thuế suất"`, node A scores 2, node B is excluded, and A is the sole
result. -/
theorem word_match_multiplicity_and_scenario :
    retrieve_from_database (.ok scenGraph) "thuế suất" 10
      = { chunks := [("A", "thuế suất VAT")], source_ids := ["A"]
          scores := [2] } ∧
    matchCount (queryWords "thuế suất") "thuế suất VAT" = 2 ∧
    matchCount (queryWords "thuế suất") "quy định khác" = 0 ∧
    matchCount (queryWords "a a") "a" = 2 := by decide

/-- C7 (counterexample): with the embedding provider failing, the pipeline
still performs graph expansion, so its ranking (`["s1", "n1"]`) differs
from a direct lexical-only run (`["s1"]`) on the same inputs. -/
theorem embedding_failure_not_lexical_only_cex :
    ((retrieve_with_graph_context (.ok fbGraph) cosZero (.error "E") "x" 10
        1).source_ids = ["s1", "n1"]) ∧
    ((retrieve_from_database (.ok fbGraph) "x" 10).source_ids = ["s1"]) ∧
    ((retrieve_with_graph_context (.ok fbGraph) cosZero (.error "E") "x" 10
        1).source_ids
      ≠ (retrieve_from_database (.ok fbGraph) "x" 10).source_ids) := by decide

/-- C7 (amended): when the embedding provider fails, the embedding stage is
skipped — the result is exactly the (deterministic, not retried) word-only
graph query's output — with `embedding_used = false` and a warning
appended; the ranking is that of the word-only graph query (word-match
seeds plus graph expansion), which need not match a direct lexical-only
run. -/
theorem embedding_failure_skips_to_word_only (g : Graph) (cos : CosFun)
    (e prompt : String) (top_k hop_depth : ℕ) :
    retrieve_with_graph_context (.ok g) cos (.error e) prompt top_k hop_depth
      = processGraphResults (graphQueryWordOnly g prompt top_k) false
          ["Embedding unavailable: " ++ strTake 50 e] ∧
    (retrieve_with_graph_context (.ok g) cos (.error e) prompt top_k
      hop_depth).embedding_used = false ∧
    (retrieve_with_graph_context (.ok g) cos (.error e) prompt top_k
      hop_depth).warnings = ["Embedding unavailable: " ++ strTake 50 e] :=
  ⟨retrieve_ok_err_eq g cos e prompt top_k hop_depth, rfl, rfl⟩

/-- C8 (counterexample): when the store fails, the word-match baseline's
output is indistinguishable from a successful run over an empty graph — an
empty candidate set with no error indicator of any kind. -/
theorem word_match_error_silent_cex :
    retrieve_word_match (.error "store unreachable") "q" 10
      = retrieve_word_match (.ok { nodes := [], edges := [] }) "q" 10 := by
  decide

/-- C8 (amended): on a graph-store failure the graph-enhanced retrieval
returns the empty candidate set together with an explicit error indicator
(`cypher_query = "Error: ..."` and `warnings = [e]`), without crashing; the
word-match baseline also returns the empty output but carries no
indicator. -/
theorem graph_store_failure_empty_with_indicator (cos : CosFun)
    (embRes : Except String (List ℚ)) (e prompt : String)
    (top_k hop_depth : ℕ) :
    retrieve_with_graph_context (.error e) cos embRes prompt top_k hop_depth
      = { chunks := [], source_ids := [], scores := [], graph_context := []
          cypher_query := "Error: " ++ e, embedding_used := false
          warnings := [e] } ∧
    retrieve_word_match (.error e) prompt top_k
      = { chunks := [], source_ids := [], scores := [] } :=
  ⟨retrieve_err_eq cos embRes prompt e top_k hop_depth, rfl⟩

/-- C10: the `hop_depth` argument is never used — any two values give
identical results — and neighbour expansion traverses exactly one hop:
every non-seed candidate of either graph query is one edge away from one of
the selected seeds. -/
theorem hop_depth_unused_and_one_hop :
    (∀ (store : Except String Graph) (cos : CosFun)
        (embRes : Except String (List ℚ)) (prompt : String)
        (top_k h1 h2 : ℕ),
      retrieve_with_graph_context store cos embRes prompt top_k h1
        = retrieve_with_graph_context store cos embRes prompt top_k h2) ∧
    (∀ (g : Graph) (cos : CosFun) (emb : List ℚ) (prompt : String)
        (top_k : ℕ) (c : Cand),
      c ∈ graphQueryWithEmbedding g cos emb prompt top_k →
      c.is_seed = false →
      ∃ s ∈ seedsWithEmbedding g cos emb prompt, oneHopAdj g s.id c.id) ∧
    (∀ (g : Graph) (prompt : String) (top_k : ℕ) (c : Cand),
      c ∈ graphQueryWordOnly g prompt top_k → c.is_seed = false →
      ∃ s ∈ seedsWordOnly g prompt, oneHopAdj g s.id c.id) :=
  ⟨fun _ _ _ _ _ _ _ => rfl,
   fun g cos emb prompt k c hc hns =>
     finalize_one_hop g (seedsWithEmbedding g cos emb prompt) k c hc hns,
   fun g prompt k c hc hns =>
     finalize_one_hop g (seedsWordOnly g prompt) k c hc hns⟩

/-- Witness for C10: the non-seed copy of `"b"` in `pairGraph`'s word-only
query output is one hop from a selected seed. -/
theorem hop_depth_unused_and_one_hop_witness :
    ∃ s ∈ seedsWordOnly pairGraph "x", oneHopAdj pairGraph s.id "b" :=
  hop_depth_unused_and_one_hop.2.2 pairGraph "x" 10
    { id := "b", text := "x2", score := GRAPH_RELATED_NODE_SCORE,
      is_seed := false, relationship := some "R" }
    (by decide) (by decide)

/-- C6: whenever the cross-encoder model is unavailable (`"fallback"`
sentinel) or scoring throws, `rerank` returns the input chunks in their
pre-existing order truncated to `top_n`, with the synthetic scores
`1.0 - i * 0.1` for 0-indexed position `i`. -/
theorem rerank_failure_fallback_contract (m : RerankModel) (query : String)
    (chunks : List RChunk) (top_n : ℕ) (h : rerankFails m query chunks) :
    rerank m query chunks top_n
      = (chunks.take top_n, fallbackScores top_n chunks.length) := by
  rcases h with rfl | ⟨predict, err, rfl, hp⟩
  · unfold rerank
    by_cases hc : chunks.isEmpty
    · rw [if_pos hc]
      have he : chunks = [] := by
        cases chunks with
        | nil => rfl
        | cons a t => simp [List.isEmpty] at hc
      subst he
      simp [fallbackScores]
    · rw [if_neg hc]
  · unfold rerank
    by_cases hc : chunks.isEmpty
    · rw [if_pos hc]
      have he : chunks = [] := by
        cases chunks with
        | nil => rfl
        | cons a t => simp [List.isEmpty] at hc
      subst he
      simp [fallbackScores]
    · rw [if_neg hc]
      have hcne : chunks ≠ [] := by
        intro he; rw [he] at hc; exact hc rfl
      have hpairne : ¬((rerankPairs query chunks).isEmpty = true) := by
        cases chunks with
        | nil => exact absurd rfl hcne
        | cons a t => simp [rerankPairs, List.isEmpty]
      show (if (rerankPairs query chunks).isEmpty = true
          then (([] : List RChunk), ([] : List ℚ))
          else
            match predict (rerankPairs query chunks) with
            | .error _ =>
                (chunks.take top_n, fallbackScores top_n chunks.length)
            | .ok scores => rerankScored chunks scores top_n) = _
      rw [if_neg hpairne, hp]

/-- Witness for C6 (and spec §8's scenario): scoring forced to throw on
three chunks with `top_n = 3` leaves the order unchanged and yields scores
exactly `[1.0, 0.9, 0.8]`. -/
theorem rerank_failure_fallback_contract_witness :
    rerankFails (.loaded (fun _ => .error "model down")) "q" threeChunks ∧
    rerank (.loaded (fun _ => .error "model down")) "q" threeChunks 3
      = (threeChunks, [1, mkRat 9 10, mkRat 8 10]) := by
  have hfail : rerankFails (.loaded (fun _ => .error "model down")) "q"
      threeChunks := Or.inr ⟨_, "model down", rfl, rfl⟩
  refine ⟨hfail, ?_⟩
  rw [rerank_failure_fallback_contract _ _ _ 3 hfail]
  have h1 : threeChunks.take 3 = threeChunks := by decide
  have h2 : fallbackScores 3 threeChunks.length
      = [1, mkRat 9 10, mkRat 8 10] := by
    show fallbackScores 3 3 = [1, mkRat 9 10, mkRat 8 10]
    unfold fallbackScores
    norm_num [List.range_succ, Rat.mkRat_eq_div]
  rw [h1, h2]

/-- C9: on an identical candidate row set carrying lexical and embedding
scores, score fusion with `alpha = 1` reproduces the pure lexical ranking
order, and fusion with `alpha = 0` reproduces the pure embedding ranking
order (requiring a positive lexical maximum, the regime in which the
query's division is defined). -/
theorem fusion_alpha_extremes (g : Graph) (cos : CosFun) (ug : Bool)
    (prompt : String) (qemb : List ℚ)
    (h : 0 < maxLex (hybridRows g cos ug prompt qemb)) :
    hybridSearchOrder g cos ug prompt qemb 1
      = specLexOrder (hybridRows g cos ug prompt qemb) ∧
    hybridSearchOrder g cos ug prompt qemb 0
      = specEmbOrder (hybridRows g cos ug prompt qemb) := by
  constructor
  · unfold hybridSearchOrder specLexOrder
    have hs : stableSort
        (leHybridDesc 1 (maxLex (hybridRows g cos ug prompt qemb)))
        (hybridRows g cos ug prompt qemb)
        = stableSort (fun a b => decide (b.lex ≤ a.lex))
            (hybridRows g cos ug prompt qemb) := by
      apply stableSort_congr
      intro a b
      unfold leHybridDesc
      apply decide_eq_decide.mpr
      have hv : ∀ r : HRow, hybridScore 1
          (maxLex (hybridRows g cos ug prompt qemb)) r
          = r.lex / maxLex (hybridRows g cos ug prompt qemb) := by
        intro r; unfold hybridScore; ring
      rw [hv a, hv b]
      exact div_le_div_iff_of_pos_right h
    rw [hs]
  · unfold hybridSearchOrder specEmbOrder
    have hs : stableSort
        (leHybridDesc 0 (maxLex (hybridRows g cos ug prompt qemb)))
        (hybridRows g cos ug prompt qemb)
        = stableSort (fun a b => decide (b.emb ≤ a.emb))
            (hybridRows g cos ug prompt qemb) := by
      apply stableSort_congr
      intro a b
      unfold leHybridDesc
      apply decide_eq_decide.mpr
      have hv : ∀ r : HRow, hybridScore 0
          (maxLex (hybridRows g cos ug prompt qemb)) r
          = (r.emb + 1) / 2 := by
        intro r; unfold hybridScore; ring
      rw [hv a, hv b]
      constructor <;> intro <;> linarith
    rw [hs]

/-- Witness for C9 at a one-node graph whose sole row has lexical score 1:
the hypothesis `0 < max_lex` holds and both reductions apply. -/
theorem fusion_alpha_extremes_witness :
    0 < maxLex (hybridRows oneNodeGraph cosZero false "x" [1]) ∧
    (hybridSearchOrder oneNodeGraph cosZero false "x" [1] 1
      = specLexOrder (hybridRows oneNodeGraph cosZero false "x" [1]) ∧
    hybridSearchOrder oneNodeGraph cosZero false "x" [1] 0
      = specEmbOrder (hybridRows oneNodeGraph cosZero false "x" [1])) :=
  ⟨by decide,
   fusion_alpha_extremes oneNodeGraph cosZero false "x" [1] (by decide)⟩

end DocGraph
